import Mathlib

/-!
Verification development for the host-based emulation harness of the Tock
kernel (directory `host-testing` together with the wire-type library
`host-emulation`).  The Rust source is shallowly embedded: pointers and
machine words become `Nat` (addresses are opaque integers that are never
dereferenced on the kernel side), byte buffers become `List Nat`, the
datagram transport becomes explicit lists of datagrams consumed in order,
and the observable wire traffic of one `unyield` exchange becomes an
explicit event trace.  Fallible operations return `Except EmulationError`.
-/

/-- Word size in bytes of the emulated platform (64-bit host), used by the
wire-frame layouts in `common_types.rs` where every field is a `usize`. -/
def wordSize : Nat := 8

/-- Little-endian byte encoding of a machine word on `w` bytes, mirroring
the in-memory representation that `zerocopy::AsBytes` exposes for a packed
`usize` field. -/
def natToBytesLE : Nat → Nat → List Nat
  | 0, _ => []
  | w + 1, n => (n % 256) :: natToBytesLE w (n / 256)

/-- Little-endian byte decoding, mirroring `zerocopy::FromBytes` reading a
packed `usize` field. -/
def bytesToNatLE : List Nat → Nat
  | [] => 0
  | b :: bs => b + 256 * bytesToNatLE bs

/-- Wire frame `common_types::Syscall`: packed `syscall_number: usize`
followed by `args: [usize; 4]`. -/
structure Syscall where
  syscall_number : Nat
  arg0 : Nat
  arg1 : Nat
  arg2 : Nat
  arg3 : Nat
deriving DecidableEq

/-- Wire frame `common_types::Callback`: packed `pc: usize` followed by
`args: [usize; 4]`. -/
structure Callback where
  pc : Nat
  arg0 : Nat
  arg1 : Nat
  arg2 : Nat
  arg3 : Nat
deriving DecidableEq

/-- `Callback::new0(pc)` builds a callback with all arguments zero. -/
def Callback.new0 (pc : Nat) : Callback :=
  ⟨pc, 0, 0, 0, 0⟩

/-- Wire frame `common_types::KernelReturn`: packed `ret_val: isize`
followed by an embedded `Callback`. -/
structure KernelReturn where
  ret_val : Int
  cb : Callback
deriving DecidableEq

/-- `KernelReturn::new_ret(v)`: return value `v`, callback with `pc = 0`. -/
def KernelReturn.new_ret (v : Int) : KernelReturn :=
  ⟨v, Callback.new0 0⟩

/-- `KernelReturn::new_cb(cb)`: return value `0`, the given callback. -/
def KernelReturn.new_cb (cb : Callback) : KernelReturn :=
  ⟨0, cb⟩

/-- Wire frame `common_types::AllowedRegionPreamble`: packed
`address: usize`, `length: usize`.  The all-zero preamble terminates an
allow-region list. -/
structure AllowedRegionPreamble where
  address : Nat
  length : Nat
deriving DecidableEq

/-- `AllowedRegionPreamble::new_null()`, the list terminator `{0, 0}`. -/
def AllowedRegionPreamble.new_null : AllowedRegionPreamble :=
  ⟨0, 0⟩

/-- Size in bytes of the `Syscall` wire frame (`size_of::<Syscall>()`). -/
def syscallFrameSize : Nat := 5 * wordSize

/-- Byte serialization of a `Syscall` frame, as `zerocopy::AsBytes`
produces it for the packed struct: five little-endian words. -/
def encodeSyscall (s : Syscall) : List Nat :=
  natToBytesLE wordSize s.syscall_number ++ natToBytesLE wordSize s.arg0 ++
    natToBytesLE wordSize s.arg1 ++ natToBytesLE wordSize s.arg2 ++
    natToBytesLE wordSize s.arg3

/-- Byte deserialization of a `Syscall` frame from a buffer of
`syscallFrameSize` bytes (the `LayoutVerified` reinterpretation). -/
def decodeSyscall (bs : List Nat) : Syscall :=
  { syscall_number := bytesToNatLE ((bs.drop 0).take wordSize)
    arg0 := bytesToNatLE ((bs.drop wordSize).take wordSize)
    arg1 := bytesToNatLE ((bs.drop (2 * wordSize)).take wordSize)
    arg2 := bytesToNatLE ((bs.drop (3 * wordSize)).take wordSize)
    arg3 := bytesToNatLE ((bs.drop (4 * wordSize)).take wordSize) }

/-- Error taxonomy of `host-testing` (`EmulationError` in `lib.rs`).  The
extra constructor `blocked` does not exist in the source: it marks the
point where the source would block forever on a `recv` for which the model
input supplies no datagram, so that the model stays total. -/
inductive EmulationError where
  | ioError
  | channelError
  | partialMessage (expected actual : Nat)
  | custom (msg : String)
  | blocked
deriving DecidableEq

/-- `SyscallTransport::recv::<Syscall>` in `syscall_transport.rs`: the
caller hands a zero-initialized buffer of `size_of::<Syscall>()` bytes
(`unyield`, process.rs line 147), `self.rx.recv(buf)` copies
`min(datagram length, buffer length)` bytes into the front of the buffer
and its return value is DISCARDED, and `LayoutVerified::new_unaligned`
then checks only that the buffer length equals `size_of::<Syscall>()`.
The model therefore zero-pads a short datagram and truncates a long one,
and the size check is on the buffer, not on the datagram. -/
def recvSyscallFrame (datagram : List Nat) : Except EmulationError Syscall :=
  let buf := datagram.take syscallFrameSize ++
    List.replicate (syscallFrameSize - datagram.length) 0
  if buf.length = syscallFrameSize then
    Except.ok (decodeSyscall buf)
  else
    Except.error (EmulationError.custom "Failed to deserialize Syscall.")

/-- `SyscallTransport::recv_bytes` in `syscall_transport.rs`: receive one
datagram into a buffer of `len` bytes; `recv` returns
`min(datagram length, len)` and a mismatch with `len` is reported as
`PartialMessage(expected, actual)`.  On success the buffer holds the first
`len` bytes of the datagram. -/
def recvBytesDatagram (len : Nat) (datagram : List Nat) :
    Except EmulationError (List Nat) :=
  let got := min datagram.length len
  if got = len then
    Except.ok (datagram.take len)
  else
    Except.error (EmulationError.partialMessage len got)

/-- Kernel-side shadow copy of an allowed region (`AllowSlice` in
`process.rs`): the backing byte buffer and the `valid` flag that is false
until the app has shipped the contents at least once.  The extra field
`base` records the address of the `Vec` backing store (the value of
`slice.as_mut_ptr()` in `UnixProcess::allow`), which in the source is
implicit in the heap allocation. -/
structure AllowSlice where
  base : Nat
  slice : List Nat
  valid : Bool
deriving DecidableEq

/-- `AllowSlice::len`. -/
def AllowSlice.len (s : AllowSlice) : Nat := s.slice.length

/-- `HashMap::insert` on an association list: replace the value stored at
an existing key in place, otherwise append the new entry.  (The list order
is only the model's bookkeeping; theorems about the wire order of a
transfer quantify over iteration orders separately, because
`std::collections::HashMap` iterates in an unspecified order.) -/
def hmInsert (k : Nat) (v : AllowSlice) :
    List (Nat × AllowSlice) → List (Nat × AllowSlice)
  | [] => [(k, v)]
  | (k', v') :: rest =>
    if k' = k then (k, v) :: rest else (k', v') :: hmInsert k v rest

/-- `HashMap::get` on an association list. -/
def hmLookup (k : Nat) : List (Nat × AllowSlice) → Option AllowSlice
  | [] => none
  | (k', v') :: rest => if k' = k then some v' else hmLookup k rest

/-- The part of a `UnixProcess` that the boundary claims touch: whether the
child was spawned, the allow-map, and a model of the heap allocator that
hands out the base address of each freshly allocated `Vec` (`nextAlloc`
abstracts `malloc`; each allocation bumps it past the new buffer so that
successive buffers are distinct). -/
structure UnixProcessState where
  started : Bool
  allowMap : List (Nat × AllowSlice)
  nextAlloc : Nat
deriving DecidableEq

/-- `UnixProcess::allow` (process.rs lines 109-120): a null app address is
returned unchanged with no insertion; otherwise a fresh zero-filled buffer
of length `len` is inserted keyed by the app address, `valid = false`, and
the pointer to that buffer's storage is returned. -/
def UnixProcessState.allow (p : UnixProcessState) (app_slice_addr len : Nat) :
    Nat × UnixProcessState :=
  if app_slice_addr = 0 then
    (0, p)
  else
    let base := p.nextAlloc
    (base,
      { p with
        allowMap :=
          hmInsert app_slice_addr ⟨base, List.replicate len 0, false⟩ p.allowMap
        nextAlloc := p.nextAlloc + len + 1 })

deriving instance DecidableEq for Except

/-- One observable wire operation of the kernel during an unyield
exchange, in program order.  `sendRet` is the `KernelReturn` frame,
`sendPre` one `AllowedRegionPreamble`, `sendBytes` one slice payload sent
kernel-to-app, `recvBytes n` one slice payload of `n` bytes received
app-to-kernel, `recvSyscall` the blocking receive of the `Syscall` frame,
and `spawn` the launch of the child process.  `tx_connect_if_needed` has
no wire effect and is not traced. -/
inductive Ev where
  | sendRet (r : KernelReturn)
  | sendPre (p : AllowedRegionPreamble)
  | sendBytes (bs : List Nat)
  | recvBytes (n : Nat)
  | recvSyscall
  | spawn
deriving DecidableEq

/-- `UnixProcess::transfer_allow_region` (process.rs lines 186-213) over
the allow-map presented in `entries` order (the `HashMap` iteration
order, which the source leaves unspecified).  For each entry: if `send`
and the slice is not valid, skip it entirely; otherwise send the preamble
`{addr, len}`; then either send the slice contents to the app
(`send = true`) or receive exactly `len` bytes into the slice from the
next app datagram and mark it valid (`send = false`).  After the loop,
send the null terminator preamble.  Returns the updated entries, the
remaining datagrams, and the event trace.  (On an error the source has
already mutated the earlier entries in place through the `RefCell`; the
model discards that partial mutation, and no theorem below examines the
map after a failed transfer.) -/
def transferAllowRegion (send : Bool) :
    List (Nat × AllowSlice) → List (List Nat) →
    Except EmulationError (List (Nat × AllowSlice) × List (List Nat) × List Ev)
  | [], ds => Except.ok ([], ds, [Ev.sendPre AllowedRegionPreamble.new_null])
  | (addr, sl) :: rest, ds =>
    if send && !sl.valid then
      match transferAllowRegion send rest ds with
      | Except.error e => Except.error e
      | Except.ok (rest', ds', evs) => Except.ok ((addr, sl) :: rest', ds', evs)
    else if send then
      match transferAllowRegion send rest ds with
      | Except.error e => Except.error e
      | Except.ok (rest', ds', evs) =>
        Except.ok ((addr, sl) :: rest', ds',
          Ev.sendPre ⟨addr, sl.len⟩ :: Ev.sendBytes sl.slice :: evs)
    else
      match ds with
      | [] => Except.error EmulationError.blocked
      | d :: ds1 =>
        match recvBytesDatagram sl.len d with
        | Except.error e => Except.error e
        | Except.ok bytes =>
          match transferAllowRegion send rest ds1 with
          | Except.error e => Except.error e
          | Except.ok (rest', ds', evs) =>
            Except.ok ((addr, { sl with slice := bytes, valid := true }) :: rest',
              ds', Ev.sendPre ⟨addr, sl.len⟩ :: Ev.recvBytes sl.len :: evs)

/-- The receive half shared by both branches of `unyield`: block on the
syscall socket for the `Syscall` frame (process.rs lines 147-149), then
run `transfer_allow_region(transport, true)` (line 152). -/
def unyieldRecvPhase (entries : List (Nat × AllowSlice)) (ds : List (List Nat)) :
    Except EmulationError (Syscall × List (Nat × AllowSlice) × List Ev) :=
  match ds with
  | [] => Except.error EmulationError.blocked
  | d :: ds1 =>
    match recvSyscallFrame d with
    | Except.error e => Except.error e
    | Except.ok sys =>
      match transferAllowRegion true entries ds1 with
      | Except.error e => Except.error e
      | Except.ok (entries2, _, evsC) =>
        Except.ok (sys, entries2, Ev.recvSyscall :: evsC)

/-- `UnixProcess::unyield` (process.rs lines 136-155): if a
`KernelReturn` is supplied, send it and run
`transfer_allow_region(transport, false)`; then receive the `Syscall`
frame and run `transfer_allow_region(transport, true)`.  The booleans are
exactly the ones the source passes on lines 144 and 152. -/
def unyield (entries : List (Nat × AllowSlice))
    (syscall_return : Option KernelReturn) (ds : List (List Nat)) :
    Except EmulationError (Syscall × List (Nat × AllowSlice) × List Ev) :=
  match syscall_return with
  | none => unyieldRecvPhase entries ds
  | some r =>
    match transferAllowRegion false entries ds with
    | Except.error e => Except.error e
    | Except.ok (entries1, ds1, evsA) =>
      match unyieldRecvPhase entries1 ds1 with
      | Except.error e => Except.error e
      | Except.ok (sys, entries2, evsB) =>
        Except.ok (sys, entries2, Ev.sendRet r :: (evsA ++ evsB))

/-- Modelled from the spec: `kernel::syscall::Syscall`, the scheduler's
syscall enum, lives in the kernel crate which is not part of the source
tree under verification.  The spec (sections 4.5, 8.7 and scenario S2)
names the classes YIELD, SUBSCRIBE, COMMAND, ALLOW and MEMOP, with ALLOW
carrying `{driver_number, subdriver_number, allow_address, allow_size}`. -/
inductive KSyscall where
  | YIELD
  | SUBSCRIBE (driver_number subdriver_number callback_ptr appdata : Nat)
  | COMMAND (driver_number subdriver_number arg0 arg1 : Nat)
  | ALLOW (driver_number subdriver_number allow_address allow_size : Nat)
  | MEMOP (operand arg0 : Nat)
deriving DecidableEq

/-- Modelled from the spec: `kernel::syscall::arguments_to_syscall` (the
kernel crate's decoder, called at syscall.rs line 141 with the syscall
number truncated to `u8`).  Numbers 0 through 4 decode to the five
classes; any other number fails to decode, which `switch_to_process`
turns into `Fault` (spec section 4.5 step 3). -/
def arguments_to_syscall (n a0 a1 a2 a3 : Nat) : Option KSyscall :=
  match n with
  | 0 => some KSyscall.YIELD
  | 1 => some (KSyscall.SUBSCRIBE a0 a1 a2 a3)
  | 2 => some (KSyscall.COMMAND a0 a1 a2 a3)
  | 3 => some (KSyscall.ALLOW a0 a1 a2 a3)
  | 4 => some (KSyscall.MEMOP a0 a1)
  | _ => none

/-- Modelled from the spec: `kernel::syscall::ContextSwitchReason` (kernel
crate).  Only the two variants produced by `SysCall::switch_to_process`
are needed. -/
inductive ContextSwitchReason where
  | fault
  | syscallFired (syscall : KSyscall)
deriving DecidableEq

/-- `HostStoredState` (syscall.rs lines 27-31): the per-process boundary
state, an optional reference to the `UnixProcess` and the `KernelReturn`
to ship on the next unyield. -/
structure HostStoredState where
  process : Option UnixProcessState
  syscall_ret : KernelReturn
deriving DecidableEq

/-- `SysCall::switch_to_process` (syscall.rs lines 103-176).  A missing
process reference faults immediately.  An unstarted process is spawned
(spawn success is assumed; a failed spawn also faults) and `None` is
passed to `unyield`, otherwise the stored return is passed.  A transport
error or an undecodable syscall number faults.  A decoded ALLOW has its
`allow_address` rewritten through `UnixProcess::allow`.  The result is
the context-switch reason, the updated stored state, and the event
trace.  The stack-pointer component of the source's return value is a
dummy and is omitted. -/
def switchToProcess (st : HostStoredState) (ds : List (List Nat)) :
    ContextSwitchReason × HostStoredState × List Ev :=
  match st.process with
  | none => (ContextSwitchReason.fault, st, [])
  | some p =>
    let startEvs : List Ev := if p.started then [] else [Ev.spawn]
    let ret? : Option KernelReturn := if p.started then some st.syscall_ret else none
    let p1 : UnixProcessState := { p with started := true }
    match unyield p1.allowMap ret? ds with
    | Except.error _ =>
      (ContextSwitchReason.fault, { st with process := some p1 }, startEvs)
    | Except.ok (sys, entries2, evs) =>
      let p2 : UnixProcessState := { p1 with allowMap := entries2 }
      match arguments_to_syscall (sys.syscall_number % 256)
          sys.arg0 sys.arg1 sys.arg2 sys.arg3 with
      | none =>
        (ContextSwitchReason.fault, { st with process := some p2 }, startEvs ++ evs)
      | some s =>
        match s with
        | KSyscall.ALLOW d sub a sz =>
          let (kaddr, p3) := p2.allow a sz
          (ContextSwitchReason.syscallFired (KSyscall.ALLOW d sub kaddr sz),
            { st with process := some p3 }, startEvs ++ evs)
        | s' =>
          (ContextSwitchReason.syscallFired s',
            { st with process := some p2 }, startEvs ++ evs)

/-- Maximum of a list of interrupt source ids, mirroring the order of
`BinaryHeap<Interrupt>` where `Ord` compares the `source` field
(interrupt.rs lines 39-43). -/
def listMax? : List Nat → Option Nat
  | [] => none
  | x :: xs =>
    match listMax? xs with
    | none => some x
    | some m => some (max x m)

/-- `BinaryHeap::pop`: remove and return one occurrence of the maximum
source id; on an empty heap return `none` and leave the heap alone. -/
def heapPop (l : List Nat) : Option Nat × List Nat :=
  match listMax? l with
  | none => (none, l)
  | some m => (some m, l.erase m)

/-- `LowerHalf` (interrupt.rs lines 22-25): the consumer end of the SPSC
channel, modelled as the FIFO of interrupt records that are available
without blocking (for a timed receive: that arrive before the deadline),
and the pending `BinaryHeap` modelled as a multiset of source ids. -/
structure LowerHalf where
  channel : List Nat
  pending : List Nat
deriving DecidableEq

/-- `LowerHalf::receive_interrupts` (interrupt.rs lines 82-100).  Both the
`try_recv` branch (`wait_us = none`) and the `recv_timeout` branch
(`wait_us = some d`) receive AT MOST ONE interrupt from the channel and
push it onto the heap; an empty channel is only logged.  The deadline `d`
does not change which single item is taken in the model: the `channel`
field already holds exactly the records the receive could observe. -/
def receiveInterrupts (s : LowerHalf) (wait_us : Option Nat) : LowerHalf :=
  match wait_us, s.channel with
  | _, [] => s
  | _, i :: rest => { channel := rest, pending := i :: s.pending }

/-- `LowerHalf::wait_for_interrupt` (interrupt.rs lines 102-114): receive
at most one interrupt, then pop the heap.  If the heap is empty the
source PANICS when a deadline was supplied (line 109) and returns `None`
otherwise; the panic is modelled as `Except.error` with the panic
message. -/
def waitForInterrupt (s : LowerHalf) (wait_us : Option Nat) :
    Except String (Option Nat × LowerHalf) :=
  let s1 := receiveInterrupts s wait_us
  match heapPop s1.pending with
  | (some i, rest) => Except.ok (some i, { s1 with pending := rest })
  | (none, _) =>
    if wait_us.isSome then
      Except.error "Received empty interrupt."
    else
      Except.ok (none, s1)

/-- `LowerHalf::has_pending_interrupts` (interrupt.rs lines 116-119). -/
def hasPendingInterrupts (s : LowerHalf) : Bool × LowerHalf :=
  let s1 := receiveInterrupts s none
  (!s1.pending.isEmpty, s1)

/-- `Iterator::next` for `&mut LowerHalf` (interrupt.rs lines 122-129):
one non-blocking receive, then one heap pop. -/
def lowerNext (s : LowerHalf) : Option Nat × LowerHalf :=
  let s1 := receiveInterrupts s none
  match heapPop s1.pending with
  | (r, rest) => (r, { s1 with pending := rest })

/-- `n` successive iterator pops on the lower half, collecting results. -/
def lowerPops : Nat → LowerHalf → List (Option Nat)
  | 0, _ => []
  | n + 1, s =>
    match lowerNext s with
    | (r, s1) => r :: lowerPops n s1

/-- interrupt.rs line 91: the timed receive builds its timeout as
`Duration::from_millis(wait_us.unwrap() as u64)` although the deadline
`wait_us` is a count of MICROSECONDS (the parameter name, and the systick
remaining time that `HostChip::sleep` passes, are both in microseconds).
This function is that conversion expressed in microseconds: the actual
wait is `wait_us * 1000` microseconds. -/
def recvTimeoutWaitMicros (wait_us : Nat) : Nat := wait_us * 1000

/-- `kernel::procs::FunctionCallSource` (used by `EmulatedProcess`). -/
inductive FunctionCallSource where
  | kernel
  | driver (id : Nat)
deriving DecidableEq

/-- `kernel::procs::FunctionCall`. -/
structure FunctionCall where
  source : FunctionCallSource
  pc : Nat
  argument0 : Nat
  argument1 : Nat
  argument2 : Nat
  argument3 : Nat
deriving DecidableEq

/-- `kernel::procs::Task`: a function-call task or an IPC task. -/
inductive KTask where
  | functionCall (f : FunctionCall)
  | ipc (appIdx : Nat)
deriving DecidableEq

/-- `kernel::procs::State`, the process lifecycle states of section 3. -/
inductive PState where
  | Unstarted
  | Running
  | Yielded
  | StoppedRunning
  | StoppedYielded
  | Fault
  | StoppedFaulted
deriving DecidableEq

/-- The slice of `EmulatedProcess` state the work-accounting claims need:
the lifecycle state, the task queue (an `Option` mirroring the `MapCell`,
which is empty only while a `map` closure is running), the
`dropped_callback_count` debug counter, and the kernel-global external
work counter.  Modelled from the spec: the counter itself
(`Kernel::increment_work_external` and `Kernel::decrement_work_external`)
lives in the kernel crate outside the verified tree; per the spec it is a
plain counter bumped by one on each call, modelled as an `Int` so that
non-negativity is a statement and not a typing accident. -/
structure EmuState where
  state : PState
  tasks : Option (List KTask)
  dropped : Nat
  work : Int
deriving DecidableEq

/-- The initial pc = 0 kernel function-call task that `create` enqueues to
mean "exec the process" (process.rs lines 271-281). -/
def execTask : KTask :=
  KTask.functionCall ⟨FunctionCallSource.kernel, 0, 0, 0, 0, 0⟩

/-- `EmulatedProcess::create` (process.rs lines 240-285) as it affects the
claims: state `Unstarted`, a queue holding exactly the exec task, and one
increment of the kernel-global work counter, whose prior value is `w`. -/
def createProcess (w : Int) : EmuState :=
  { state := PState.Unstarted, tasks := some [execTask], dropped := 0, work := w + 1 }

/-- `EmulatedProcess::is_active` (process.rs lines 289-293). -/
def isActive (s : EmuState) : Bool :=
  decide (s.state ≠ PState.StoppedFaulted) && decide (s.state ≠ PState.Fault)

/-- `EmulatedProcess::enqueue_task` (process.rs lines 300-319): reject
when not active; otherwise increment the work counter FIRST, then push
onto the queue if the `MapCell` holds it, bumping
`dropped_callback_count` when it does not. -/
def enqueueTask (s : EmuState) (t : KTask) : Bool × EmuState :=
  if !isActive s then
    (false, s)
  else
    let s1 := { s with work := s.work + 1 }
    match s1.tasks with
    | some ts => (true, { s1 with tasks := some (ts ++ [t]) })
    | none => (false, { s1 with dropped := s1.dropped + 1 })

/-- `EmulatedProcess::dequeue_task` (process.rs lines 321-328): pop the
front of the queue and decrement the work counter only when a task was
actually returned. -/
def dequeueTask (s : EmuState) : Option KTask × EmuState :=
  match s.tasks with
  | none => (none, s)
  | some [] => (none, s)
  | some (t :: ts) => (some t, { s with tasks := some ts, work := s.work - 1 })

/-- `EmulatedProcess::remove_pending_callbacks` (process.rs lines
330-340): retain kernel-sourced function calls, driver-sourced ones with
a different id, and every non-function-call task. -/
def removePendingCallbacks (s : EmuState) (callback_id : Nat) : EmuState :=
  match s.tasks with
  | none => s
  | some ts =>
    { s with
      tasks := some (ts.filter fun t =>
        match t with
        | KTask.functionCall call =>
          match call.source with
          | FunctionCallSource.kernel => true
          | FunctionCallSource.driver id => decide (id ≠ callback_id)
        | _ => true) }

/-- `EmulatedProcess::set_yielded_state` (process.rs lines 346-351):
from `Running` go to `Yielded` and decrement the work counter; otherwise
do nothing. -/
def setYieldedState (s : EmuState) : EmuState :=
  if s.state = PState.Running then
    { s with state := PState.Yielded, work := s.work - 1 }
  else
    s

/-- `EmulatedProcess::stop` (process.rs lines 353-359). -/
def stopProcess (s : EmuState) : EmuState :=
  match s.state with
  | PState.Running => { s with state := PState.StoppedRunning }
  | PState.Yielded => { s with state := PState.StoppedYielded }
  | _ => s

/-- `EmulatedProcess::resume` (process.rs lines 361-367). -/
def resumeProcess (s : EmuState) : EmuState :=
  match s.state with
  | PState.StoppedRunning => { s with state := PState.Running }
  | PState.StoppedYielded => { s with state := PState.Yielded }
  | _ => s

/-- `EmulatedProcess::set_process_function` (process.rs lines 465-485):
the boundary's `set_process_function` always succeeds (syscall.rs line
100 returns `Ok`), so the work counter is incremented and the state set
to `Running`. -/
def setProcessFunction (s : EmuState) : EmuState :=
  { s with state := PState.Running, work := s.work + 1 }

/-- `EmulatedProcess::set_fault_state` (process.rs lines 369-374): the
state becomes `Fault`; the subsequent source panic aborts the kernel, so
no operation follows it in a real run, but keeping it as a plain
transition only adds behaviours. -/
def setFaultState (s : EmuState) : EmuState :=
  { s with state := PState.Fault }

/-- One scheduler-thread operation on an emulated process, for stating
trace invariants of the work counter. -/
inductive EmuOp where
  | enqueue (t : KTask)
  | dequeue
  | removeCallbacks (id : Nat)
  | setYielded
  | stop
  | resume
  | setFunction
  | setFault
deriving DecidableEq

/-- Apply one operation (discarding the operation's return value). -/
def stepOp (s : EmuState) : EmuOp → EmuState
  | EmuOp.enqueue t => (enqueueTask s t).2
  | EmuOp.dequeue => (dequeueTask s).2
  | EmuOp.removeCallbacks id => removePendingCallbacks s id
  | EmuOp.setYielded => setYieldedState s
  | EmuOp.stop => stopProcess s
  | EmuOp.resume => resumeProcess s
  | EmuOp.setFunction => setProcessFunction s
  | EmuOp.setFault => setFaultState s

/-- Run a sequence of operations from a starting state. -/
def runOps (s : EmuState) : List EmuOp → EmuState
  | [] => s
  | op :: ops => runOps (stepOp s op) ops

/-- The subsequence of `AllowedRegionPreamble` frames sent during a trace,
in wire order. -/
def traceEvPreambles (evs : List Ev) : List AllowedRegionPreamble :=
  evs.filterMap fun e =>
    match e with
    | Ev.sendPre p => some p
    | _ => none

/-- Contribution of the lifecycle state to the work counter: one unit
while the process is running or stopped-while-running (entering `Running`
paid one increment that only `set_yielded_state` takes back). -/
def runBitI (st : PState) : Int :=
  if st = PState.Running ∨ st = PState.StoppedRunning then 1 else 0

/-- Number of queued tasks, as an integer. -/
def tasksLenI (s : EmuState) : Int :=
  match s.tasks with
  | none => 0
  | some l => l.length

/-- The work-accounting invariant of an emulated process: the task-queue
`MapCell` is occupied, and the work counter dominates the number of
queued tasks plus the running contribution.  It holds after `create` and
is preserved by every scheduler-thread operation, which gives
non-negativity of the counter over any run. -/
def EmuInv (s : EmuState) : Prop :=
  s.tasks.isSome = true ∧ tasksLenI s + runBitI s.state ≤ s.work

/-- C10: if `switch_to_process` is invoked on a stored boundary state
whose process reference is `None`, it returns the `Fault` context-switch
reason immediately, with an empty event trace (so no child is spawned
and nothing is sent on or received from the transport) and with the
stored state unchanged. -/
theorem c10_switch_to_process_without_process_faults
    (r : KernelReturn) (ds : List (List Nat)) :
    switchToProcess ⟨none, r⟩ ds = (ContextSwitchReason.fault, ⟨none, r⟩, []) :=
  rfl

/-- C1, evaluation at the failing input: in an unyield that carries a
`KernelReturn` and whose allow-map holds one not-yet-valid slice, the
code sends the `KernelReturn` and then runs the allow transfer in the
RECEIVE direction (`transfer_allow_region(transport, false)`, process.rs
line 144): it emits a preamble even for the invalid slice and receives
the slice contents app-to-kernel, marking them valid, all BEFORE the
`Syscall` frame; after the `Syscall` it runs the SEND direction (line
152) and ships the contents kernel-to-app.  The claim (and the source's
own doc comment on `unyield`) put the kernel-to-app flow before the
`Syscall` and the app-to-kernel flow after it. -/
theorem c1_unyield_transfer_directions :
    unyield [(256, ⟨1000, [0, 0, 0, 0], false⟩)]
      (some (KernelReturn.new_ret 5))
      [[9, 9, 9, 9], encodeSyscall ⟨2, 7, 8, 0, 0⟩] =
    Except.ok (⟨2, 7, 8, 0, 0⟩, [(256, ⟨1000, [9, 9, 9, 9], true⟩)],
      [Ev.sendRet (KernelReturn.new_ret 5), Ev.sendPre ⟨256, 4⟩,
        Ev.recvBytes 4, Ev.sendPre ⟨0, 0⟩, Ev.recvSyscall,
        Ev.sendPre ⟨256, 4⟩, Ev.sendBytes [9, 9, 9, 9], Ev.sendPre ⟨0, 0⟩]) := by
  decide

/-- C2, evaluation at the failing input: a one-byte datagram `[0x01]`,
far shorter than the forty-byte `Syscall` frame, is ACCEPTED by
`SyscallTransport::recv` (the number of bytes actually received is
discarded, and the layout check sees only the caller's full-size
zero-initialized buffer), yielding the zero-padded frame
`{1, [0,0,0,0]}`; `switch_to_process` consequently returns
`SyscallFired{SUBSCRIBE}` for a started process, not `Fault`.  The claim
says the short datagram is rejected with a size-mismatch error and that
`switch_to_process` returns `Fault`. -/
theorem c2_short_syscall_datagram_accepted :
    recvSyscallFrame [1] = Except.ok ⟨1, 0, 0, 0, 0⟩ ∧
    (switchToProcess ⟨some ⟨true, [], 0⟩, KernelReturn.new_ret 0⟩ [[1]]).1 =
      ContextSwitchReason.syscallFired (KSyscall.SUBSCRIBE 0 0 0 0) ∧
    (switchToProcess ⟨some ⟨true, [], 0⟩, KernelReturn.new_ret 0⟩ [[1]]).1 ≠
      ContextSwitchReason.fault := by
  decide

/-- C9, evaluation at the failing input: a deadline of 1000 microseconds
is turned into a timed wait of `Duration::from_millis(1000)`, i.e.
1000000 microseconds — a factor of one thousand longer than the
1000-microsecond bound the claim states. -/
theorem c9_recv_timeout_millis_for_micros :
    recvTimeoutWaitMicros 1000 = 1000000 ∧ (1000000 : Nat) ≠ 1000 := by
  decide

/-- C3, counterexample: with an empty heap and no interrupt arriving
within the supplied deadline, `wait_for_interrupt(Some(10))` PANICS
("Received empty interrupt.", interrupt.rs line 109) instead of
returning `None` as the claim states. -/
theorem c3_counterexample_deadline_empty_panics :
    waitForInterrupt ⟨[], []⟩ (some 10) = Except.error "Received empty interrupt." ∧
    waitForInterrupt ⟨[], []⟩ (some 10) ≠ Except.ok (none, ⟨[], []⟩) := by
  decide

/-- C3, amended: `wait_for_interrupt` never panics when called WITHOUT a
deadline — it always returns `ok`, and when no interrupt is pending
after the non-blocking drain the result is exactly `None` (with the
drained lower half unchanged) — but when a deadline is supplied and no
interrupt arrives within it (and none is pending), the call panics
rather than returning `None`. -/
theorem c3_amended_wait_for_interrupt (s : LowerHalf) :
    (∃ r, waitForInterrupt s none = Except.ok r) ∧
    ((receiveInterrupts s none).pending = [] →
      waitForInterrupt s none = Except.ok (none, receiveInterrupts s none)) ∧
    (∀ d : Nat,
      waitForInterrupt ⟨[], []⟩ (some d) = Except.error "Received empty interrupt.") := by
  refine ⟨?_, ?_, ?_⟩
  · rcases hp : heapPop (receiveInterrupts s none).pending with ⟨r, rest⟩
    cases r with
    | some i =>
      refine ⟨(some i, ⟨(receiveInterrupts s none).channel, rest⟩), ?_⟩
      simp [waitForInterrupt, hp]
    | none =>
      refine ⟨(none, receiveInterrupts s none), ?_⟩
      simp [waitForInterrupt, hp]
  · intro hemp
    simp [waitForInterrupt, hemp, heapPop, listMax?]
  · intro d
    rfl

/-- Witness for C3 (amended) at a concrete input: on an empty lower half
the no-deadline call drains nothing and returns `None` without
panicking. -/
theorem c3_amended_wait_for_interrupt_witness :
    (receiveInterrupts ⟨[], []⟩ none).pending = [] ∧
    waitForInterrupt ⟨[], []⟩ none = Except.ok (none, receiveInterrupts ⟨[], []⟩ none) :=
  ⟨rfl, (c3_amended_wait_for_interrupt ⟨[], []⟩).2.1 rfl⟩

/-- C4, counterexample: after the sources `[3, 9, 1, 7]` have been
pushed through the upper half (so they sit in the channel in FIFO
order), four successive iterator pops on the lower half yield
`[3, 9, 1, 7]`, not `[9, 7, 3, 1]`: each `next` moves only ONE
immediately-available interrupt from the channel into the heap before
popping, so each pop sees a heap holding just the one new arrival. -/
theorem c4_counterexample_pop_order :
    lowerPops 4 ⟨[3, 9, 1, 7], []⟩ = [some 3, some 9, some 1, some 7] ∧
    lowerPops 4 ⟨[3, 9, 1, 7], []⟩ ≠ [some 9, some 7, some 3, some 1] := by
  decide

/-- The first component of a heap pop is the maximum of the heap. -/
theorem heapPop_fst (l : List Nat) : (heapPop l).1 = listMax? l := by
  unfold heapPop
  cases listMax? l <;> rfl

/-- `listMax?` is invariant under permutation of the heap contents. -/
theorem listMax?_congr_perm {l₁ l₂ : List Nat} (hp : l₁.Perm l₂) :
    listMax? l₁ = listMax? l₂ := by
  induction hp with
  | nil => rfl
  | cons x _ ih => simp [listMax?, ih]
  | swap x y l =>
    simp only [listMax?]
    cases listMax? l with
    | none => simp [max_comm]
    | some m => simp [max_left_comm]
  | trans _ _ ih₁ ih₂ => exact ih₁.trans ih₂

/-- C4, amended: the non-blocking drain moves AT MOST ONE
immediately-available interrupt from the channel into the heap per call,
and each iterator pop returns the maximum source id present in the heap
after that single transfer; in particular, after the sources
`[3, 9, 1, 7]` have been pushed through the upper half, four successive
iterator pops yield `[3, 9, 1, 7]`. -/
theorem c4_amended_single_transfer_max_pop :
    (∀ c h : List Nat, (lowerNext ⟨c, h⟩).1 = listMax? (h ++ c.take 1)) ∧
    (∀ c h : List Nat, ((lowerNext ⟨c, h⟩).2).channel = c.drop 1) ∧
    lowerPops 4 ⟨[3, 9, 1, 7], []⟩ = [some 3, some 9, some 1, some 7] := by
  refine ⟨?_, ?_, by decide⟩
  · intro c h
    cases c with
    | nil => simp [lowerNext, receiveInterrupts, heapPop_fst]
    | cons i r =>
      have : (lowerNext ⟨i :: r, h⟩).1 = listMax? (i :: h) := by
        simp [lowerNext, receiveInterrupts, heapPop_fst]
      rw [this]
      exact listMax?_congr_perm (List.perm_append_singleton i h).symm ▸ rfl
  · intro c h
    cases c with
    | nil => rfl
    | cons i r => rfl

/-- Looking up the just-inserted key finds the new value (insert replaces
any existing entry for that key). -/
theorem hmLookup_hmInsert_self (k : Nat) (v : AllowSlice)
    (l : List (Nat × AllowSlice)) : hmLookup k (hmInsert k v l) = some v := by
  induction l with
  | nil => simp [hmInsert, hmLookup]
  | cons e rest ih =>
    rcases e with ⟨k', v'⟩
    by_cases hk : k' = k
    · simp [hmInsert, hmLookup, hk]
    · simp [hmInsert, hmLookup, hk, ih]

/-- Looking up any other key is unaffected by an insert. -/
theorem hmLookup_hmInsert_ne (k k' : Nat) (v : AllowSlice)
    (l : List (Nat × AllowSlice)) (h : k' ≠ k) :
    hmLookup k' (hmInsert k v l) = hmLookup k' l := by
  induction l with
  | nil =>
    have h' : ¬k = k' := fun he => h he.symm
    simp [hmInsert, hmLookup, h']
  | cons e rest ih =>
    rcases e with ⟨k₀, v₀⟩
    by_cases hk : k₀ = k
    · subst hk
      have h' : ¬k₀ = k' := fun he => h he.symm
      simp [hmInsert, hmLookup, h']
    · by_cases hk' : k₀ = k'
      · simp [hmInsert, hmLookup, hk, hk', h]
      · simp [hmInsert, hmLookup, hk, hk', ih]

/-- C8: `UnixProcess::allow(app_addr, len)` with a null address returns
null and leaves the process (in particular its allow-map) unchanged;
with a non-null address it stores, under that key and replacing any
existing entry, a fresh zero-filled buffer of length `len` with
`valid = false`, returns the pointer to that buffer's storage (the
stored `base` is exactly the returned address), leaves every other key's
entry unchanged, and touches nothing else of the process. -/
theorem c8_allow_null_and_fresh_insert (p : UnixProcessState) (addr len : Nat) :
    (addr = 0 → UnixProcessState.allow p addr len = (0, p)) ∧
    (addr ≠ 0 →
      hmLookup addr (UnixProcessState.allow p addr len).2.allowMap =
        some ⟨(UnixProcessState.allow p addr len).1, List.replicate len 0, false⟩ ∧
      (∀ k, k ≠ addr →
        hmLookup k (UnixProcessState.allow p addr len).2.allowMap =
          hmLookup k p.allowMap) ∧
      (UnixProcessState.allow p addr len).2.started = p.started) := by
  constructor
  · intro h
    simp [UnixProcessState.allow, h]
  · intro h
    refine ⟨?_, ?_, ?_⟩
    · simp [UnixProcessState.allow, h, hmLookup_hmInsert_self]
    · intro k hk
      simp [UnixProcessState.allow, h, hmLookup_hmInsert_ne _ _ _ _ hk]
    · simp [UnixProcessState.allow, h]

/-- Witness for C8 at concrete inputs: a null allow leaves the state
unchanged, and allowing address 7 with length 2 stores a zero-filled
two-byte invalid slice whose base is the returned pointer. -/
theorem c8_allow_null_and_fresh_insert_witness :
    UnixProcessState.allow ⟨true, [], 40⟩ 0 3 = (0, ⟨true, [], 40⟩) ∧
    hmLookup 7 (UnixProcessState.allow ⟨true, [], 40⟩ 7 2).2.allowMap =
      some ⟨(UnixProcessState.allow ⟨true, [], 40⟩ 7 2).1, List.replicate 2 0, false⟩ :=
  ⟨(c8_allow_null_and_fresh_insert ⟨true, [], 40⟩ 0 3).1 rfl,
    ((c8_allow_null_and_fresh_insert ⟨true, [], 40⟩ 7 2).2 (by decide)).1⟩

/-- C5, amended: for WHATEVER order the `HashMap` iterates the allow-map
in (the source leaves it unspecified; it is not the insertion order),
the non-null preambles sent by one `transfer_allow_region` call
enumerate, in that iteration order, exactly the entries with
`valid = true` in the send direction and all entries in the receive
direction, followed by exactly one null terminator preamble; and in the
send direction slice contents are shipped only for entries whose slice
is valid. -/
theorem c5_amended_transfer_wire_order :
    (∀ (entries : List (Nat × AllowSlice)) (ds : List (List Nat)) out,
      transferAllowRegion true entries ds = Except.ok out →
      traceEvPreambles out.2.2 =
        ((entries.filter fun e => e.2.valid).map fun e => ⟨e.1, e.2.len⟩) ++
          [AllowedRegionPreamble.new_null]) ∧
    (∀ (entries : List (Nat × AllowSlice)) (ds : List (List Nat)) out,
      transferAllowRegion false entries ds = Except.ok out →
      traceEvPreambles out.2.2 =
        (entries.map fun e => ⟨e.1, e.2.len⟩) ++ [AllowedRegionPreamble.new_null]) ∧
    (∀ (entries : List (Nat × AllowSlice)) (ds : List (List Nat)) out,
      transferAllowRegion true entries ds = Except.ok out →
      ∀ bs, Ev.sendBytes bs ∈ out.2.2 →
        ∃ e ∈ entries, e.2.valid = true ∧ e.2.slice = bs) := by
  refine ⟨?_, ?_, ?_⟩
  · intro entries
    induction entries with
    | nil =>
      intro ds out h
      simp only [transferAllowRegion] at h
      cases h
      rfl
    | cons e rest ih =>
      rcases e with ⟨addr, sl⟩
      intro ds out h
      cases hv : sl.valid with
      | false =>
        simp only [transferAllowRegion, hv] at h
        cases hr : transferAllowRegion true rest ds with
        | error err => simp [hr] at h
        | ok val =>
          rcases val with ⟨rest', ds', evs⟩
          simp [hr] at h
          subst h
          simpa [List.filter, hv] using ih ds (rest', ds', evs) hr
      | true =>
        simp only [transferAllowRegion, hv] at h
        cases hr : transferAllowRegion true rest ds with
        | error err => simp [hr] at h
        | ok val =>
          rcases val with ⟨rest', ds', evs⟩
          simp [hr] at h
          subst h
          simpa [traceEvPreambles, List.filter, hv] using ih ds (rest', ds', evs) hr
  · intro entries
    induction entries with
    | nil =>
      intro ds out h
      simp only [transferAllowRegion] at h
      cases h
      rfl
    | cons e rest ih =>
      rcases e with ⟨addr, sl⟩
      intro ds out h
      simp only [transferAllowRegion] at h
      cases ds with
      | nil => simp at h
      | cons d ds1 =>
        cases hb : recvBytesDatagram sl.len d with
        | error err => simp [hb] at h
        | ok bytes =>
          cases hr : transferAllowRegion false rest ds1 with
          | error err => simp [hb, hr] at h
          | ok val =>
            rcases val with ⟨rest', ds', evs⟩
            simp [hb, hr] at h
            subst h
            simpa [traceEvPreambles] using ih ds1 (rest', ds', evs) hr
  · intro entries
    induction entries with
    | nil =>
      intro ds out h
      simp only [transferAllowRegion] at h
      cases h
      intro bs hbs
      simp [traceEvPreambles] at hbs
    | cons e rest ih =>
      rcases e with ⟨addr, sl⟩
      intro ds out h
      cases hv : sl.valid with
      | false =>
        simp only [transferAllowRegion, hv] at h
        cases hr : transferAllowRegion true rest ds with
        | error err => simp [hr] at h
        | ok val =>
          rcases val with ⟨rest', ds', evs⟩
          simp [hr] at h
          subst h
          intro bs hbs
          rcases ih ds (rest', ds', evs) hr bs hbs with ⟨e, he, hev, hes⟩
          exact ⟨e, List.mem_cons_of_mem _ he, hev, hes⟩
      | true =>
        simp only [transferAllowRegion, hv] at h
        cases hr : transferAllowRegion true rest ds with
        | error err => simp [hr] at h
        | ok val =>
          rcases val with ⟨rest', ds', evs⟩
          simp [hr] at h
          subst h
          intro bs hbs
          rcases List.mem_cons.mp hbs with h1 | h2
          · cases h1
          · rcases List.mem_cons.mp h2 with h3 | h4
            · cases h3
              exact ⟨(addr, sl), List.mem_cons_self _ _, hv, rfl⟩
            · rcases ih ds (rest', ds', evs) hr bs h4 with ⟨e, he, hev, hes⟩
              exact ⟨e, List.mem_cons_of_mem _ he, hev, hes⟩

/-- C5, counterexample to the insertion-order part of the claim: insert
app addresses 1 then 2 (two `allow` calls — the model list records the
insertion order `[(1, _), (2, _)]`).  Rust's `HashMap` iterates in an
unspecified order, so the iteration `[(2, _), (1, _)]` — a permutation
of the same entries — is an admissible execution; under it the receive
direction puts the preamble for address 2 on the wire before the one
for address 1, which is not the insertion order the claim requires. -/
theorem c5_counterexample_iteration_order :
    (((⟨true, [], 100⟩ : UnixProcessState).allow 1 1).2.allow 2 1).2.allowMap =
      [(1, ⟨100, [0], false⟩), (2, ⟨102, [0], false⟩)] ∧
    List.Perm [(2, (⟨102, [0], false⟩ : AllowSlice)), (1, ⟨100, [0], false⟩)]
      [(1, ⟨100, [0], false⟩), (2, ⟨102, [0], false⟩)] ∧
    transferAllowRegion false [(2, ⟨102, [0], false⟩), (1, ⟨100, [0], false⟩)]
      [[7], [8]] =
      Except.ok ([(2, ⟨102, [7], true⟩), (1, ⟨100, [8], true⟩)], [],
        [Ev.sendPre ⟨2, 1⟩, Ev.recvBytes 1, Ev.sendPre ⟨1, 1⟩, Ev.recvBytes 1,
          Ev.sendPre ⟨0, 0⟩]) ∧
    traceEvPreambles
        [Ev.sendPre ⟨2, 1⟩, Ev.recvBytes 1, Ev.sendPre ⟨1, 1⟩, Ev.recvBytes 1,
          Ev.sendPre ⟨0, 0⟩] ≠
      [⟨1, 1⟩, ⟨2, 1⟩, AllowedRegionPreamble.new_null] := by
  refine ⟨by decide, List.Perm.swap _ _ _, by decide, by decide⟩

/-- Witness for C5 (amended) at a concrete input: one valid entry in the
send direction produces its preamble followed by the null terminator. -/
theorem c5_amended_transfer_wire_order_witness :
    transferAllowRegion true [(5, ⟨100, [1, 2], true⟩)] [] =
      Except.ok ([(5, ⟨100, [1, 2], true⟩)], [],
        [Ev.sendPre ⟨5, 2⟩, Ev.sendBytes [1, 2], Ev.sendPre ⟨0, 0⟩]) ∧
    traceEvPreambles [Ev.sendPre ⟨5, 2⟩, Ev.sendBytes [1, 2], Ev.sendPre ⟨0, 0⟩] =
      [⟨5, 2⟩, AllowedRegionPreamble.new_null] :=
  ⟨by decide,
    (c5_amended_transfer_wire_order.1 [(5, ⟨100, [1, 2], true⟩)] []
      ([(5, ⟨100, [1, 2], true⟩)], [],
        [Ev.sendPre ⟨5, 2⟩, Ev.sendBytes [1, 2], Ev.sendPre ⟨0, 0⟩])
      (by decide)).trans (by decide)⟩

/-- C7, amended: whenever `switch_to_process` returns `SyscallFired`
with an ALLOW syscall — on a started process (previous return shipped)
or on the very first invocation (process spawned, `None` passed to
unyield) — the `allow_address` field equals the kernel pointer returned
by `process.allow` applied to the app-supplied address and size (for a
non-null app address that is a pointer into the fresh kernel shadow
buffer; a null app address yields null, which coincides with the
original app address).  The `if p.started` hypothesis mirrors the
branch at syscall.rs lines 119-129 that selects what unyield is given,
so every `SyscallFired{ALLOW}` return is covered. -/
theorem c7_amended_allow_address_rewritten
    (p : UnixProcessState) (r : KernelReturn) (ds : List (List Nat))
    (sys : Syscall) (entries2 : List (Nat × AllowSlice)) (evs : List Ev)
    (d sub a sz : Nat)
    (hu : unyield p.allowMap (if p.started then some r else none) ds =
      Except.ok (sys, entries2, evs))
    (hdec : arguments_to_syscall (sys.syscall_number % 256)
        sys.arg0 sys.arg1 sys.arg2 sys.arg3 =
      some (KSyscall.ALLOW d sub a sz)) :
    (switchToProcess ⟨some p, r⟩ ds).1 =
      ContextSwitchReason.syscallFired
        (KSyscall.ALLOW d sub
          ((UnixProcessState.allow { p with started := true, allowMap := entries2 }
            a sz).1) sz) := by
  rcases p with ⟨st, am, na⟩
  cases st with
  | true =>
    rw [if_pos rfl] at hu
    simp [switchToProcess, hu, hdec]
  | false =>
    rw [if_neg Bool.false_ne_true] at hu
    simp [switchToProcess, hu, hdec]

/-- Witness for C7 (amended) at concrete inputs, covering both paths: an
unstarted process is spawned and its very first syscall is the frame
`{3, [1, 0, 77, 4]}` (ALLOW of app address 77, size 4), and a started
process receives the same frame after its stored return; in both cases
the fired syscall carries the kernel address returned by `allow 77 4` —
here the fresh buffer base 50 — in place of 77. -/
theorem c7_amended_allow_address_rewritten_witness :
    unyield []
        (if (⟨false, [], 50⟩ : UnixProcessState).started
          then some (KernelReturn.new_ret 0) else none)
        [encodeSyscall ⟨3, 1, 0, 77, 4⟩] =
      Except.ok (⟨3, 1, 0, 77, 4⟩, [], [Ev.recvSyscall, Ev.sendPre ⟨0, 0⟩]) ∧
    arguments_to_syscall (3 % 256) 1 0 77 4 = some (KSyscall.ALLOW 1 0 77 4) ∧
    (switchToProcess ⟨some ⟨false, [], 50⟩, KernelReturn.new_ret 0⟩
        [encodeSyscall ⟨3, 1, 0, 77, 4⟩]).1 =
      ContextSwitchReason.syscallFired
        (KSyscall.ALLOW 1 0 ((UnixProcessState.allow ⟨true, [], 50⟩ 77 4).1) 4) ∧
    (switchToProcess ⟨some ⟨true, [], 50⟩, KernelReturn.new_ret 0⟩
        [encodeSyscall ⟨3, 1, 0, 77, 4⟩]).1 =
      ContextSwitchReason.syscallFired
        (KSyscall.ALLOW 1 0 ((UnixProcessState.allow ⟨true, [], 50⟩ 77 4).1) 4) :=
  ⟨by decide, by decide,
    c7_amended_allow_address_rewritten ⟨false, [], 50⟩ (KernelReturn.new_ret 0)
      [encodeSyscall ⟨3, 1, 0, 77, 4⟩] ⟨3, 1, 0, 77, 4⟩ []
      [Ev.recvSyscall, Ev.sendPre ⟨0, 0⟩] 1 0 77 4 (by decide) (by decide),
    c7_amended_allow_address_rewritten ⟨true, [], 50⟩ (KernelReturn.new_ret 0)
      [encodeSyscall ⟨3, 1, 0, 77, 4⟩] ⟨3, 1, 0, 77, 4⟩ []
      [Ev.sendRet (KernelReturn.new_ret 0), Ev.sendPre ⟨0, 0⟩, Ev.recvSyscall,
        Ev.sendPre ⟨0, 0⟩] 1 0 77 4 (by decide) (by decide)⟩

/-- C7, counterexample to "never the original app-space address": the
app allows the NULL address (syscall frame `{3, [1, 0, 0, 4]}`).
`process.allow(null, 4)` returns null, so the rewritten `allow_address`
is 0 — exactly the original app-supplied address. -/
theorem c7_counterexample_null_allow_keeps_app_address :
    (switchToProcess ⟨some ⟨true, [], 50⟩, KernelReturn.new_ret 0⟩
        [encodeSyscall ⟨3, 1, 0, 0, 4⟩]).1 =
      ContextSwitchReason.syscallFired (KSyscall.ALLOW 1 0 0 4) ∧
    ((⟨true, [], 50⟩ : UnixProcessState).allow 0 4).1 = 0 := by
  decide

/-- Every scheduler-thread operation preserves the work-accounting
invariant. -/
theorem emuInv_step (s : EmuState) (op : EmuOp) (h : EmuInv s) :
    EmuInv (stepOp s op) := by
  obtain ⟨hts, hw⟩ := h
  rcases hsome : s.tasks with _ | ts
  · rw [hsome] at hts
    cases hts
  have hlen : tasksLenI s = (ts.length : Int) := by simp [tasksLenI, hsome]
  rw [hlen] at hw
  cases op with
  | enqueue t =>
    by_cases ha : isActive s
    · have ha' : (!isActive s) = false := by simp [ha]
      refine ⟨by simp [stepOp, enqueueTask, ha', hsome], ?_⟩
      simp only [stepOp, enqueueTask, ha', Bool.false_eq_true, if_false, hsome]
      simp [tasksLenI]
      generalize runBitI s.state = b at hw ⊢
      omega
    · have ha' : (!isActive s) = true := by simp [ha]
      simp only [stepOp, enqueueTask, ha', if_true]
      refine ⟨hts, ?_⟩
      rw [hlen]
      exact hw
  | dequeue =>
    cases ts with
    | nil =>
      simp only [stepOp, dequeueTask, hsome]
      refine ⟨hts, ?_⟩
      rw [hlen]
      exact hw
    | cons t ts' =>
      refine ⟨by simp [stepOp, dequeueTask, hsome], ?_⟩
      simp only [stepOp, dequeueTask, hsome]
      simp [tasksLenI]
      simp [List.length_cons] at hw
      generalize runBitI s.state = b at hw ⊢
      omega
  | removeCallbacks id =>
    simp only [stepOp, removePendingCallbacks, hsome]
    refine ⟨rfl, ?_⟩
    simp only [tasksLenI]
    refine le_trans (add_le_add_right ?_ _) hw
    exact_mod_cast List.length_filter_le _ ts
  | setYielded =>
    by_cases hr : s.state = PState.Running
    · simp only [stepOp, setYieldedState, hr, if_pos rfl]
      refine ⟨hts, ?_⟩
      simp [tasksLenI, hsome, runBitI, hr] at hw ⊢
      omega
    · simp only [stepOp, setYieldedState, if_neg hr]
      refine ⟨hts, ?_⟩
      rw [hlen]
      exact hw
  | stop =>
    cases hst : s.state <;>
      simp only [stepOp, stopProcess, hst] <;>
      refine ⟨hts, ?_⟩ <;>
      simp [tasksLenI, hsome, runBitI, hst] at hw ⊢ <;>
      omega
  | resume =>
    cases hst : s.state <;>
      simp only [stepOp, resumeProcess, hst] <;>
      refine ⟨hts, ?_⟩ <;>
      simp [tasksLenI, hsome, runBitI, hst] at hw ⊢ <;>
      omega
  | setFunction =>
    refine ⟨hts, ?_⟩
    simp only [stepOp, setProcessFunction]
    simp [tasksLenI, hsome, runBitI]
    have hb : (0 : Int) ≤ runBitI s.state := by
      unfold runBitI
      split <;> norm_num
    omega
  | setFault =>
    refine ⟨hts, ?_⟩
    simp only [stepOp, setFaultState]
    simp [tasksLenI, hsome, runBitI]
    have hb : (0 : Int) ≤ runBitI s.state := by
      unfold runBitI
      split <;> norm_num
    omega

/-- The queue length contribution is non-negative. -/
theorem tasksLenI_nonneg (s : EmuState) : 0 ≤ tasksLenI s := by
  unfold tasksLenI
  cases s.tasks <;> simp

/-- The running contribution is non-negative. -/
theorem runBitI_nonneg (st : PState) : 0 ≤ runBitI st := by
  unfold runBitI
  split <;> norm_num

/-- The invariant is preserved along any operation sequence. -/
theorem emuInv_runOps (s : EmuState) (ops : List EmuOp) (h : EmuInv s) :
    EmuInv (runOps s ops) := by
  induction ops generalizing s with
  | nil => exact h
  | cons op rest ih => exact ih _ (emuInv_step s op h)

/-- C6: the external-work counter is incremented exactly once by a
successful `enqueue_task` and not at all by one that returns `false`
(given the task-queue `MapCell` is occupied, as it is in every reachable
state); it is incremented exactly once at process creation, which
enqueues the initial pc = 0 exec task; it is decremented exactly once by
a `dequeue_task` that returns a task and untouched by one that returns
`None`; and over any run — any operation sequence from a freshly created
process, starting from a non-negative global counter — it stays
non-negative. -/
theorem c6_work_accounting :
    (∀ w : Int,
      (createProcess w).work = w + 1 ∧ (createProcess w).tasks = some [execTask]) ∧
    (∀ (s : EmuState) (t : KTask), s.tasks.isSome = true →
      ((enqueueTask s t).1 = true → (enqueueTask s t).2.work = s.work + 1) ∧
      ((enqueueTask s t).1 = false → (enqueueTask s t).2.work = s.work)) ∧
    (∀ s : EmuState,
      ((dequeueTask s).1.isSome = true → (dequeueTask s).2.work = s.work - 1) ∧
      ((dequeueTask s).1.isNone = true → (dequeueTask s).2.work = s.work)) ∧
    (∀ w : Int, 0 ≤ w →
      ∀ ops : List EmuOp, 0 ≤ (runOps (createProcess w) ops).work) := by
  refine ⟨fun w => ⟨rfl, rfl⟩, ?_, ?_, ?_⟩
  · intro s t hts
    by_cases ha : isActive s
    · have ha' : (!isActive s) = false := by simp [ha]
      rcases hsome : s.tasks with _ | ts
      · rw [hsome] at hts
        cases hts
      · constructor
        · intro _
          simp [enqueueTask, ha', hsome]
        · intro hb
          simp [enqueueTask, ha', hsome] at hb
    · have ha' : (!isActive s) = true := by simp [ha]
      constructor
      · intro hb
        simp [enqueueTask, ha'] at hb
      · intro _
        simp [enqueueTask, ha']
  · intro s
    rcases hsome : s.tasks with _ | ts
    · constructor
      · intro hb
        simp [dequeueTask, hsome] at hb
      · intro _
        simp [dequeueTask, hsome]
    · cases ts with
      | nil =>
        constructor
        · intro hb
          simp [dequeueTask, hsome] at hb
        · intro _
          simp [dequeueTask, hsome]
      | cons t ts' =>
        constructor
        · intro _
          simp [dequeueTask, hsome]
        · intro hb
          simp [dequeueTask, hsome] at hb
  · intro w hw ops
    have h0 : EmuInv (createProcess w) := by
      refine ⟨rfl, ?_⟩
      simp [createProcess, tasksLenI, runBitI]
      omega
    obtain ⟨hts, hwk⟩ := emuInv_runOps (createProcess w) ops h0
    have h1 := tasksLenI_nonneg (runOps (createProcess w) ops)
    have h2 := runBitI_nonneg (runOps (createProcess w) ops).state
    omega

/-- Witness for C6 at concrete inputs: creation enqueues the exec task
and sets the counter to one; enqueueing on the fresh process succeeds
and bumps the counter; and a run that dequeues more often than it
enqueues still leaves the counter non-negative. -/
theorem c6_work_accounting_witness :
    (createProcess 0).tasks.isSome = true ∧
    (enqueueTask (createProcess 0) execTask).1 = true ∧
    (enqueueTask (createProcess 0) execTask).2.work = (createProcess 0).work + 1 ∧
    (0 : Int) ≤ 0 ∧
    0 ≤ (runOps (createProcess 0)
      [EmuOp.dequeue, EmuOp.setFunction, EmuOp.setYielded, EmuOp.dequeue]).work :=
  ⟨rfl, by decide,
    (c6_work_accounting.2.1 (createProcess 0) execTask rfl).1 (by decide),
    le_refl 0,
    c6_work_accounting.2.2.2 0 (le_refl 0)
      [EmuOp.dequeue, EmuOp.setFunction, EmuOp.setYielded, EmuOp.dequeue]⟩
